import Mathlib

/-!
Shallow embedding of the pachyderm worker execution engine and commit store,
translated from:
  src/src/server/pfs/server/commit_store.go
  src/src/server/pkg/worker/api_server.go

Effects (fileset storage calls, object-store calls, the user process) are
modelled by explicit oracles; each store operation additionally returns the
list of storage calls it performed, so that claims about which calls happen
(and in which order) can be stated.
-/

namespace Pach

/-- Errors returned by Go code; `errorf s` stands for `errors.Errorf(s)`,
`sqlNoRows` for `sql.ErrNoRows` (GetContext on an empty result set), and
`sqlBindArgs` for the database/sql driver error raised when a statement names
bind placeholders but the call supplies no arguments
(`sql: expected 2 arguments, got 0`). -/
inductive GoErr
| errorf (s : String)
| sqlNoRows
| sqlBindArgs
| other (s : String)
deriving DecidableEq, Repr

/-- `fileset.ID` is a string identifier. -/
abbrev FilesetID := String

/-- TTL argument of storage calls: `track.NoTTL` or the package's `defaultTTL`. -/
inductive TTL
| noTTL
| defaultTTL
deriving DecidableEq, Repr

/-- `*pfs.Commit`: identified by repo name and commit id
(`commit.Repo.Name`, `commit.ID`). `commitKey` is modelled as the pair itself. -/
structure Commit where
  repoName : String
  id : String
deriving DecidableEq, Repr

/-- One call into `fileset.Storage` (`Clone`, `Compose`, `Drop`). -/
inductive FsCall
| cloneC (id : FilesetID) (ttl : TTL)
| composeC (ids : List FilesetID) (ttl : TTL)
| dropC (id : FilesetID)
deriving DecidableEq, Repr

/-- Behaviour of the external `fileset.Storage` (`s.s` in the Go code):
results of `Clone`, `Compose` and `Drop` are given by an oracle. -/
structure StorageModel where
  clone : FilesetID → TTL → Except GoErr FilesetID
  compose : List FilesetID → TTL → Except GoErr FilesetID
  drop : FilesetID → Option GoErr

/-- Association-list lookup, modelling Go map indexing `m[k]`. -/
def alistGet {α β : Type} [DecidableEq α] (m : List (α × β)) (k : α) : Option β :=
  (m.find? (fun p => decide (p.1 = k))).map (·.2)

/-- Association-list update, modelling Go map assignment `m[k] = v`. -/
def alistSet {α β : Type} [DecidableEq α] (m : List (α × β)) (k : α) (v : β) :
    List (α × β) :=
  (k, v) :: m.filter (fun p => decide (p.1 ≠ k))

/-- Association-list removal, modelling Go `delete(m, k)`. -/
def alistDel {α β : Type} [DecidableEq α] (m : List (α × β)) (k : α) :
    List (α × β) :=
  m.filter (fun p => decide (p.1 ≠ k))

/-- State of `memCommitStore`: the `staging` and `finished` maps
(keyed by `commitKey(commit)`, modelled as the commit itself). -/
structure MemCommitStore where
  staging : List (Commit × List FilesetID)
  finished : List (Commit × FilesetID)
deriving DecidableEq, Repr

namespace MemCommitStore

/-- `newMemCommitStore`: both maps empty. -/
def new : MemCommitStore := ⟨[], []⟩

/-- `memCommitStore.AddFileset`: fails when the commit is finished, otherwise
clones the fileset with `NoTTL` and appends the clone to the staging list. -/
def AddFileset (sm : StorageModel) (s : MemCommitStore) (commit : Commit)
    (filesetID : FilesetID) : Except GoErr Unit × MemCommitStore × List FsCall :=
  if (alistGet s.finished commit).isSome then
    (.error (.errorf "commit is finished"), s, [])
  else
    match sm.clone filesetID .noTTL with
    | .error e => (.error e, s, [.cloneC filesetID .noTTL])
    | .ok id =>
      let ids := (alistGet s.staging commit).getD []
      (.ok (), { s with staging := alistSet s.staging commit (ids ++ [id]) },
        [.cloneC filesetID .noTTL])

/-- `memCommitStore.GetFileset`: clone of the finished total when set,
otherwise a compose of the staging list. -/
def GetFileset (sm : StorageModel) (s : MemCommitStore) (commit : Commit) :
    Except GoErr FilesetID × List FsCall :=
  match alistGet s.finished commit with
  | some id => (sm.clone id .defaultTTL, [.cloneC id .defaultTTL])
  | none =>
    let ids := (alistGet s.staging commit).getD []
    (sm.compose ids .defaultTTL, [.composeC ids .defaultTTL])

/-- `memCommitStore.DropFilesets`: deletes both map entries; never fails and
performs no storage calls. -/
def DropFilesets (s : MemCommitStore) (commit : Commit) :
    Except GoErr Unit × MemCommitStore × List FsCall :=
  (.ok (), { staging := alistDel s.staging commit,
             finished := alistDel s.finished commit }, [])

end MemCommitStore

/-- One row of `pfs.commit_diffs`: `(repo_name, commit_id, num, fileset_id)`. -/
structure DiffRow where
  repoName : String
  commitID : String
  num : Nat
  filesetID : FilesetID
deriving DecidableEq, Repr

/-- One row of `pfs.commit_totals`: `(repo_name, commit_id, fileset_id)`. -/
structure TotalRow where
  repoName : String
  commitID : String
  filesetID : FilesetID
deriving DecidableEq, Repr

/-- State of the tables used by `postgresCommitStore`; `nextNum` is the
`SERIAL` sequence backing `commit_diffs.num`. -/
structure PgCommitStore where
  commitDiffs : List DiffRow
  commitTotals : List TotalRow
  nextNum : Nat
deriving DecidableEq, Repr

namespace PgCommitStore

/-- Ascending order on `commit_diffs.num`, used to model SQL `ORDER BY num`. -/
def byNum (a b : DiffRow) : Prop := a.num ≤ b.num

instance : DecidableRel byNum := fun a b => Nat.decLe a.num b.num

instance : IsTotal DiffRow byNum := ⟨fun a b => Nat.le_total a.num b.num⟩

instance : IsTrans DiffRow byNum := ⟨fun _ _ _ h1 h2 => Nat.le_trans h1 h2⟩

/-- Sorting by `num`, used to model SQL `ORDER BY num`. -/
def sortByNum (l : List DiffRow) : List DiffRow := List.insertionSort byNum l

/-- Whether a `commit_diffs` row belongs to a commit
(`WHERE commit_id = $1 AND repo_name = $2`). -/
def rowMatches (commit : Commit) (r : DiffRow) : Bool :=
  decide (r.repoName = commit.repoName) && decide (r.commitID = commit.id)

/-- `postgresCommitStore.getDiff`: the commit's diff rows, ordered by `num`,
projected to their fileset ids. -/
def getDiff (s : PgCommitStore) (commit : Commit) : List FilesetID :=
  (sortByNum (s.commitDiffs.filter (rowMatches commit))).map (·.filesetID)

/-- `postgresCommitStore.getTotal`: the commit's `commit_totals` row if one
exists (`GetContext` returns `sql.ErrNoRows` otherwise). -/
def getTotal (s : PgCommitStore) (commit : Commit) : Except GoErr FilesetID :=
  match s.commitTotals.find? (fun r =>
      decide (r.repoName = commit.repoName) && decide (r.commitID = commit.id)) with
  | some r => .ok r.filesetID
  | none => .error .sqlNoRows

/-- `postgresCommitStore.AddFileset`: clone with `NoTTL`, then insert a
`commit_diffs` row whose `num` is drawn from the sequence. -/
def AddFileset (sm : StorageModel) (s : PgCommitStore) (commit : Commit)
    (id : FilesetID) : Except GoErr Unit × PgCommitStore × List FsCall :=
  match sm.clone id .noTTL with
  | .error e => (.error e, s, [.cloneC id .noTTL])
  | .ok id2 =>
    (.ok (),
      { s with
        commitDiffs := s.commitDiffs ++ [⟨commit.repoName, commit.id, s.nextNum, id2⟩],
        nextNum := s.nextNum + 1 },
      [.cloneC id .noTTL])

/-- `postgresCommitStore.GetFileset`: clone of the total when the row exists,
otherwise a compose of the diffs ordered by `num`. -/
def GetFileset (sm : StorageModel) (s : PgCommitStore) (commit : Commit) :
    Except GoErr FilesetID × List FsCall :=
  match getTotal s commit with
  | .ok id => (sm.clone id .defaultTTL, [.cloneC id .defaultTTL])
  | .error _ =>
    let ids := getDiff s commit
    (sm.compose ids .defaultTTL, [.composeC ids .defaultTTL])

/-- Drops each fileset id in order, stopping at the first storage error
(the loop over `diffIDs` in `DropFilesets`). -/
def dropAll (sm : StorageModel) : List FilesetID → Option GoErr × List FsCall
  | [] => (none, [])
  | id :: ids =>
    match sm.drop id with
    | some e => (some e, [.dropC id])
    | none =>
      let (r, calls) := dropAll sm ids
      (r, .dropC id :: calls)

/-- `postgresCommitStore.DropFilesets`: drop every diff fileset, then execute
`DELETE FROM pfs.commit_diffs WHERE repo_name = $1 AND commit_id = $2`. The
Go call passes no bind arguments for the two placeholders, so the statement
fails with the driver's argument-count error and the method returns it: no
rows are deleted, `getTotal` is never reached, and the call never succeeds
(the statements after the first `DELETE` are dead code). -/
def DropFilesets (sm : StorageModel) (s : PgCommitStore) (commit : Commit) :
    Except GoErr Unit × PgCommitStore × List FsCall :=
  let diffIDs := getDiff s commit
  match dropAll sm diffIDs with
  | (some e, calls) => (.error e, s, calls)
  | (none, calls) => (.error .sqlBindArgs, s, calls)

end PgCommitStore

/-! Worker (`src/src/server/pkg/worker/api_server.go`). -/

/-- `*pfs.FileInfo`, as far as the worker inspects it (an opaque datum entry
handed to `filesync.Pull`). -/
structure FileInfo where
  path : String
  hash : String
deriving DecidableEq, Repr

/-- One declared pipeline input (`a.pipelineInfo.Inputs[i]`). -/
structure Input where
  name : String
  lazy : Bool
deriving DecidableEq, Repr

/-- `pps.Transform`: command vector, stdin lines, accepted exit codes. -/
structure Transform where
  cmd : List String
  stdin : List String
  acceptReturnCode : List Int
deriving DecidableEq, Repr

/-- `pps.PipelineInfo`, as far as the worker reads it. -/
structure PipelineInfo where
  inputs : List Input
  transform : Transform
deriving DecidableEq, Repr

/-- Result of `downloadData`. Go indexes `a.pipelineInfo.Inputs[i]` with no
bounds check; an index past the end panics, modelled as `indexOutOfRange`. -/
inductive DownResult
| ok
| err (e : GoErr)
| indexOutOfRange (i : Nat)
deriving DecidableEq, Repr

/-- `downloadData`: for each datum entry at position `i`, pull it under the
`i`-th declared input. `pull i input datum` is the oracle for the result of
`filesync.Pull`. -/
def downloadData (pinfo : PipelineInfo)
    (pull : Nat → Input → FileInfo → Option GoErr) : List FileInfo → DownResult :=
  go 0
where
  go : Nat → List FileInfo → DownResult
  | _, [] => .ok
  | i, datum :: rest =>
    match pinfo.inputs[i]? with
    | none => .indexOutOfRange i
    | some input =>
      match pull i input datum with
      | some e => .err e
      | none => go (i + 1) rest

/-- Outcome of `cmd.Run()` for the user binary: normal exit 0, non-zero exit
with a `WaitStatus` exit code, termination by a signal (where
`WaitStatus.ExitStatus()` reports `-1`), or an error that is not an
`*exec.ExitError` (e.g. the binary could not be started). -/
inductive RunOutcome
| ok
| exit (code : Int)
| signaled (sig : Nat)
| startErr
deriving DecidableEq, Repr

/-- The `success` flag computed by `runUserCode` after `cmd.Run()` returns:
true on exit 0, and on a non-zero exit whose `ExitStatus()` equals some entry
of `Transform.AcceptReturnCode` (a signal reports `ExitStatus() = -1`). -/
def runSuccess (t : Transform) : RunOutcome → Bool
  | .ok => true
  | .exit code => t.acceptReturnCode.contains code
  | .signaled _ => t.acceptReturnCode.contains (-1)
  | .startErr => false

/-- `runUserCode`: an error only when `os.MkdirAll` fails; otherwise it
returns nil regardless of the user binary's outcome, yielding the `success`
flag (which only controls the stderr log). -/
def runUserCode (t : Transform) (mkdirErr : Option GoErr) (outcome : RunOutcome) :
    Except GoErr Bool :=
  match mkdirErr with
  | some e => .error e
  | none => .ok (runSuccess t outcome)

/-- A node of the hashtree being built by `uploadOutput` (`hashtree` package;
for these claims only the entries recorded matter). -/
inductive TreeEntry
| dir (path : String)
| file (path : String) (blockRefs : List String)
deriving DecidableEq, Repr

/-- Serialized tree bytes are modelled by the canonical entry list itself. -/
abbrev TreeBytes := List TreeEntry

/-- The object store visible to the worker: a map from tag/object name to the
bytes stored under it (`PutObject` with a tag; `GetTag` reads them back). -/
abbrev Store := List (String × TreeBytes)

/-- `pachClient.GetTag(tag, w)`: the bytes under `tag`, if any. -/
def Store.GetTag (st : Store) (tag : String) : Option TreeBytes :=
  alistGet st tag

/-- `pachClient.PutObject(bytes, tag)`: record `b` under `tag`. -/
def Store.PutObject (st : Store) (tag : String) (b : TreeBytes) : Store :=
  alistSet st tag b

/-- One entry met by `filepath.Walk` under `/pfs/out`, already relative to
the output root (the root itself is skipped by the walk callback). -/
structure WalkEntry where
  relPath : String
  isDir : Bool
deriving DecidableEq, Repr

/-- Environment of one `uploadOutput` call: the walk enumeration and oracles
for the fallible steps (`filepath.Walk` itself, `PutBlock` per file,
`tree.Finish`, `hashtree.Serialize`, `PutObject`). -/
structure UploadEnv where
  entries : List WalkEntry
  walkErr : Option GoErr
  putBlock : String → Except GoErr (List String)
  finishErr : Option GoErr
  serializeErr : Option GoErr
  putObjectErr : Option GoErr

/-- Observable events of `uploadOutput`, in order. -/
inductive UpEv
| putDirEv (path : String)
| putBlockEv (path : String)
| finishEv
| serializeEv
| putObjectEv (tag : String)
deriving DecidableEq, Repr

/-- Processing of the walk entries: directories are recorded with `PutDir`,
files are uploaded with `PutBlock` and recorded with `PutFile` (an error on a
duplicate path, as the hashtree builder enforces leaf uniqueness). Returns
the tree entries recorded, the first error if any, and the event list. -/
def walkEntries (env : UploadEnv) :
    List WalkEntry → TreeBytes → TreeBytes × Option GoErr × List UpEv
  | [], tree => (tree, none, [])
  | e :: rest, tree =>
    if e.isDir then
      let (tr, r, evs) := walkEntries env rest (tree ++ [.dir e.relPath])
      (tr, r, .putDirEv e.relPath :: evs)
    else
      match env.putBlock e.relPath with
      | .error er => (tree, some er, [.putBlockEv e.relPath])
      | .ok refs =>
        if (tree.any (fun te =>
            match te with
            | .dir p => decide (p = e.relPath)
            | .file p _ => decide (p = e.relPath))) then
          (tree, some (.errorf "duplicate path"), [.putBlockEv e.relPath])
        else
          let (tr, r, evs) :=
            walkEntries env rest (tree ++ [.file e.relPath refs])
          (tr, r, .putBlockEv e.relPath :: evs)

/-- `uploadOutput`: walk the output directory uploading every entry, wait for
all uploads, then finish the tree, serialize it, and `PutObject` the bytes
under `tag` — the tag write is the last step. -/
def uploadOutput (env : UploadEnv) (st : Store) (tag : String) :
    Except GoErr Unit × Store × List UpEv :=
  match env.walkErr with
  | some e => (.error e, st, [])
  | none =>
    match walkEntries env env.entries [] with
    | (_, some e, evs) => (.error e, st, evs)
    | (tree, none, evs) =>
      match env.finishErr with
      | some e => (.error e, st, evs)
      | none =>
        match env.serializeErr with
        | some e => (.error e, st, evs ++ [.finishEv])
        | none =>
          match env.putObjectErr with
          | some e => (.error e, st, evs ++ [.finishEv, .serializeEv])
          | none =>
            (.ok (), st.PutObject tag tree,
              evs ++ [.finishEv, .serializeEv, .putObjectEv tag])

/-- Observable events of one `Process` call, in program order. `runEv`
records the `success` flag `runUserCode` computed. -/
inductive Ev
| lockEv
| hashEv
| getTagEv (tag : String) (hit : Bool)
| downloadEv
| runEv (success : Bool)
| uploadEv (tag : String)
| unlockEv
deriving DecidableEq, Repr

/-- Result of `Process`: the response tag, a returned error, or a panic
(out-of-range input indexing in `downloadData`). -/
inductive ProcResult
| ok (tag : String)
| err (e : GoErr)
| panicked (i : Nat)
deriving DecidableEq, Repr

/-- Environment of one `Process` call: oracles for `filesync.Pull`,
`os.MkdirAll`, the user binary, and the upload step. -/
structure ProcEnv where
  pull : Nat → Input → FileInfo → Option GoErr
  mkdirErr : Option GoErr
  runOutcome : RunOutcome
  upload : UploadEnv

/-- `Process`: acquire the worker mutex, compute the tag with
`ppsserver.HashDatum` (the `hash` parameter — a pure function of the request
data and pipeline info), probe the cache with `GetTag` and return on a hit,
otherwise download, run the user code, and upload under the tag. The
deferred `a.Unlock()` runs on every return path. -/
def Process (hash : List FileInfo → PipelineInfo → Except GoErr String)
    (pinfo : PipelineInfo) (env : ProcEnv) (st : Store) (data : List FileInfo) :
    ProcResult × Store × List Ev :=
  match hash data pinfo with
  | .error e => (.err e, st, [.lockEv, .hashEv, .unlockEv])
  | .ok tag =>
    match st.GetTag tag with
    | some _ =>
      (.ok tag, st, [.lockEv, .hashEv, .getTagEv tag true, .unlockEv])
    | none =>
      let pre : List Ev := [.lockEv, .hashEv, .getTagEv tag false]
      match downloadData pinfo env.pull data with
      | .indexOutOfRange i =>
        (.panicked i, st, pre ++ [.downloadEv, .unlockEv])
      | .err e => (.err e, st, pre ++ [.downloadEv, .unlockEv])
      | .ok =>
        match runUserCode pinfo.transform env.mkdirErr env.runOutcome with
        | .error e => (.err e, st, pre ++ [.downloadEv, .unlockEv])
        | .ok success =>
          match uploadOutput env.upload st tag with
          | (.error e, st2, _) =>
            (.err e, st2, pre ++ [.downloadEv, .runEv success, .uploadEv tag, .unlockEv])
          | (.ok _, st2, _) =>
            (.ok tag, st2,
              pre ++ [.downloadEv, .runEv success, .uploadEv tag, .unlockEv])

/-- Whether the fingerprint computation happens before the first lock
acquisition in an event trace: scans the trace and reports true only when
`hashEv` is met before any `lockEv`. -/
def probeBeforeLock : List Ev → Bool
  | [] => false
  | Ev.lockEv :: _ => false
  | Ev.hashEv :: _ => true
  | _ :: rest => probeBeforeLock rest

/-! Concrete fixtures used by witnesses and counterexamples. -/

/-- A concrete storage behaviour where every call succeeds. -/
def smTest : StorageModel where
  clone := fun id _ => .ok (id ++ "+clone")
  compose := fun ids _ => .ok (String.intercalate "," ids ++ "+comp")
  drop := fun _ => none

def c0 : Commit := ⟨"repo", "commit1"⟩

/-- An in-memory store where `c0` is finished with total `"F"`. -/
def memFin : MemCommitStore := ⟨[], [(c0, "F")]⟩

/-- A transactional store with one diff row for `c0` and no total row. -/
def pgS0 : PgCommitStore := ⟨[⟨"repo", "commit1", 0, "d1"⟩], [], 1⟩

/-- A transform running the user binary `false` with no accepted exit codes. -/
def tFail : Transform := ⟨["false"], [], []⟩

/-- A pipeline with no declared inputs and the `tFail` transform. -/
def pinfoFail : PipelineInfo := ⟨[], tFail⟩

/-- A pipeline declaring one input. -/
def pinfoOne : PipelineInfo := ⟨[⟨"in", false⟩], tFail⟩

/-- A concrete fingerprint function returning tag `"tag0"`. -/
def hash0 : List FileInfo → PipelineInfo → Except GoErr String :=
  fun _ _ => .ok "tag0"

/-- An upload environment with an empty output directory and no failures. -/
def upOk : UploadEnv := ⟨[], none, fun _ => .ok [], none, none, none⟩

/-- A process environment where every external step succeeds but the user
binary exits with code 1. -/
def envFail : ProcEnv := ⟨fun _ _ _ => none, none, .exit 1, upOk⟩

/-- A process environment whose download step fails. -/
def envPullErr : ProcEnv :=
  ⟨fun _ _ _ => some (.other "pull failed"), none, .ok, upOk⟩

/-- An object store already holding an entry under `"tag0"`. -/
def stHit : Store := [("tag0", [])]

/-- A one-entry datum. -/
def data1 : List FileInfo := [⟨"p", "h"⟩]

/-- A transform whose accepted exit codes include 3. -/
def tAccept : Transform := ⟨["sh"], [], [3]⟩

/-- A pipeline with no declared inputs and the `tAccept` transform. -/
def pinfoAccept : PipelineInfo := ⟨[], tAccept⟩

/-- A process environment where the user binary exits with code 3. -/
def envAccept : ProcEnv := ⟨fun _ _ _ => none, none, .exit 3, upOk⟩

/-! Association-list lemmas. -/

theorem alistGet_alistSet_self {α β : Type} [DecidableEq α]
    (m : List (α × β)) (k : α) (v : β) : alistGet (alistSet m k v) k = some v := by
  simp [alistGet, alistSet]

theorem alistGet_alistDel_self {α β : Type} [DecidableEq α]
    (m : List (α × β)) (k : α) : alistGet (alistDel m k) k = none := by
  induction m with
  | nil => rfl
  | cons p m ih =>
    by_cases h : p.1 = k
    · simp [alistDel, alistGet, h]
    · simp [alistDel, alistGet, h]

/-- If every drop succeeds, `dropAll` succeeds and drops each id in order. -/
theorem dropAll_ok (sm : StorageModel) (l : List FilesetID)
    (h : ∀ d ∈ l, sm.drop d = none) :
    PgCommitStore.dropAll sm l = (none, l.map FsCall.dropC) := by
  induction l with
  | nil => rfl
  | cons d l ih =>
    have hd : sm.drop d = none := h d (by simp)
    have ih2 := ih (fun x hx => h x (by simp [hx]))
    simp [PgCommitStore.dropAll, hd, ih2]

/-- C4: AddFileset on the in-memory store for a commit that has a finished
total returns the "commit is finished" error, leaves the staging list and the
finished total unchanged (the returned store is the input store), and performs
no storage call, so no clone is recorded. -/
theorem c4_add_on_finished_fails (sm : StorageModel) (s : MemCommitStore)
    (commit : Commit) (F fid : FilesetID)
    (h : alistGet s.finished commit = some F) :
    MemCommitStore.AddFileset sm s commit fid =
      (.error (.errorf "commit is finished"), s, []) := by
  simp [MemCommitStore.AddFileset, h]

/-- Witness for C4 at a concrete finished commit. -/
theorem c4_add_on_finished_fails_witness :
    MemCommitStore.AddFileset smTest memFin c0 "f1" =
      (.error (.errorf "commit is finished"), memFin, []) :=
  c4_add_on_finished_fails smTest memFin c0 "F" "f1" rfl

/-- C10: GetFileset on a commit with no finished total and an empty staging
list — including a commit the store has never seen — does not fail with a
not-found error: it returns the result of composing the empty sequence of
fileset ids, in both the in-memory and the transactional store. -/
theorem c10_get_unseen_composes_empty :
    (∀ (sm : StorageModel) (s : MemCommitStore) (commit : Commit),
      alistGet s.finished commit = none →
      alistGet s.staging commit = none →
      MemCommitStore.GetFileset sm s commit =
        (sm.compose [] .defaultTTL, [.composeC [] .defaultTTL])) ∧
    (∀ (sm : StorageModel) (s : PgCommitStore) (commit : Commit),
      PgCommitStore.getTotal s commit = .error .sqlNoRows →
      s.commitDiffs.filter (PgCommitStore.rowMatches commit) = [] →
      PgCommitStore.GetFileset sm s commit =
        (sm.compose [] .defaultTTL, [.composeC [] .defaultTTL])) := by
  constructor
  · intro sm s commit h1 h2
    simp [MemCommitStore.GetFileset, h1, h2]
  · intro sm s commit h1 h2
    simp [PgCommitStore.GetFileset, h1, PgCommitStore.getDiff, h2,
      PgCommitStore.sortByNum, List.insertionSort]

/-- Witness for C10 at the freshly created in-memory store. -/
theorem c10_get_unseen_composes_empty_witness :
    MemCommitStore.GetFileset smTest MemCommitStore.new c0 =
      (smTest.compose [] .defaultTTL, [.composeC [] .defaultTTL]) :=
  c10_get_unseen_composes_empty.1 smTest MemCommitStore.new c0 rfl rfl

/-- C3: GetFileset returns a clone of the finished total when one is set;
otherwise it composes the staging sequence in append order — in the in-memory
store the staging list itself (to which AddFileset appends the new clone at
the end), and in the transactional store the commit's diff rows ordered by
`num` (a sorted permutation of the commit's rows). -/
theorem c3_get_total_or_staging :
    (∀ (sm : StorageModel) (s : MemCommitStore) (commit : Commit) (id : FilesetID),
      alistGet s.finished commit = some id →
      MemCommitStore.GetFileset sm s commit =
        (sm.clone id .defaultTTL, [.cloneC id .defaultTTL])) ∧
    (∀ (sm : StorageModel) (s : MemCommitStore) (commit : Commit),
      alistGet s.finished commit = none →
      MemCommitStore.GetFileset sm s commit =
        (sm.compose ((alistGet s.staging commit).getD []) .defaultTTL,
         [.composeC ((alistGet s.staging commit).getD []) .defaultTTL])) ∧
    (∀ (sm : StorageModel) (s : MemCommitStore) (commit : Commit)
      (fid : FilesetID) (s' : MemCommitStore) (calls : List FsCall),
      MemCommitStore.AddFileset sm s commit fid = (.ok (), s', calls) →
      ∃ id2, sm.clone fid .noTTL = .ok id2 ∧
        alistGet s'.staging commit =
          some ((alistGet s.staging commit).getD [] ++ [id2])) ∧
    (∀ (sm : StorageModel) (s : PgCommitStore) (commit : Commit) (id : FilesetID),
      PgCommitStore.getTotal s commit = .ok id →
      PgCommitStore.GetFileset sm s commit =
        (sm.clone id .defaultTTL, [.cloneC id .defaultTTL])) ∧
    (∀ (sm : StorageModel) (s : PgCommitStore) (commit : Commit) (e : GoErr),
      PgCommitStore.getTotal s commit = .error e →
      PgCommitStore.GetFileset sm s commit =
        (sm.compose (PgCommitStore.getDiff s commit) .defaultTTL,
         [.composeC (PgCommitStore.getDiff s commit) .defaultTTL]) ∧
      ∃ rows, List.Perm rows (s.commitDiffs.filter (PgCommitStore.rowMatches commit)) ∧
        List.Sorted PgCommitStore.byNum rows ∧
        PgCommitStore.getDiff s commit = rows.map (·.filesetID)) := by
  refine ⟨?_, ?_, ?_, ?_, ?_⟩
  · intro sm s commit id h
    simp [MemCommitStore.GetFileset, h]
  · intro sm s commit h
    simp [MemCommitStore.GetFileset, h]
  · intro sm s commit fid s' calls h
    by_cases hfin : (alistGet s.finished commit).isSome
    · simp [MemCommitStore.AddFileset, hfin] at h
    · rcases hcl : sm.clone fid .noTTL with e | id2
      · simp [MemCommitStore.AddFileset, hfin, hcl] at h
      · refine ⟨id2, rfl, ?_⟩
        have h' : ({ s with staging := (alistSet s.staging commit
              ((alistGet s.staging commit).getD [] ++ [id2])) } : MemCommitStore) = s' := by
          simpa [MemCommitStore.AddFileset, hfin, hcl] using congrArg (fun t => t.2.1) h
        rw [← h']
        exact alistGet_alistSet_self _ _ _
  · intro sm s commit id h
    simp [PgCommitStore.GetFileset, h]
  · intro sm s commit e h
    refine ⟨by simp [PgCommitStore.GetFileset, h], ?_⟩
    exact ⟨PgCommitStore.sortByNum (s.commitDiffs.filter (PgCommitStore.rowMatches commit)),
      List.perm_insertionSort _ _, List.sorted_insertionSort _ _, rfl⟩

/-- Witness for C3 at a concrete commit with a finished total. -/
theorem c3_get_total_or_staging_witness :
    MemCommitStore.GetFileset smTest memFin c0 =
      (smTest.clone "F" .defaultTTL, [.cloneC "F" .defaultTTL]) :=
  c3_get_total_or_staging.1 smTest memFin c0 "F" rfl

/-- C7 counterexample: on the transactional store, DropFilesets for a commit
with one diff row and no finished total returns the bind-argument error from
the first DELETE and leaves the table rows untouched, instead of deleting the
rows and succeeding. -/
theorem c7_drop_counterexample :
    PgCommitStore.DropFilesets smTest pgS0 c0 =
      (.error .sqlBindArgs, pgS0, [FsCall.dropC "d1"]) := rfl

/-- C7 (amended): the in-memory DropFilesets always succeeds and removes both
the staging and the total reference. The transactional DropFilesets drops
every diff fileset in the storage layer and then always fails with the
driver's bind-argument error on the first DELETE (whose `$1`/`$2`
placeholders receive no arguments): no diff or total rows are deleted, the
total fileset is not dropped, and the call never succeeds. -/
theorem c7_dropFilesets_behaviour :
    (∀ (s : MemCommitStore) (commit : Commit),
      ∃ s', MemCommitStore.DropFilesets s commit = (.ok (), s', []) ∧
        alistGet s'.staging commit = none ∧
        alistGet s'.finished commit = none) ∧
    (∀ (sm : StorageModel) (s : PgCommitStore) (commit : Commit),
      (∀ d ∈ PgCommitStore.getDiff s commit, sm.drop d = none) →
      PgCommitStore.DropFilesets sm s commit =
        (.error .sqlBindArgs, s, (PgCommitStore.getDiff s commit).map FsCall.dropC)) ∧
    (∀ (sm : StorageModel) (s : PgCommitStore) (commit : Commit),
      (PgCommitStore.DropFilesets sm s commit).2.1 = s ∧
      ∀ r, (PgCommitStore.DropFilesets sm s commit).1 ≠ .ok r) := by
  refine ⟨?_, ?_, ?_⟩
  · intro s commit
    exact ⟨_, rfl, alistGet_alistDel_self _ _, alistGet_alistDel_self _ _⟩
  · intro sm s commit hdiff
    have hda := dropAll_ok sm _ hdiff
    simp [PgCommitStore.DropFilesets, hda]
  · intro sm s commit
    rcases hda : PgCommitStore.dropAll sm (PgCommitStore.getDiff s commit) with ⟨ro, calls⟩
    rcases ro with _ | e
    · exact ⟨by simp [PgCommitStore.DropFilesets, hda],
        fun r => by simp [PgCommitStore.DropFilesets, hda]⟩
    · exact ⟨by simp [PgCommitStore.DropFilesets, hda],
        fun r => by simp [PgCommitStore.DropFilesets, hda]⟩

/-- Witness for C7 at a concrete commit with one diff row and no total. -/
theorem c7_dropFilesets_behaviour_witness :
    PgCommitStore.DropFilesets smTest pgS0 c0 =
      (.error .sqlBindArgs, pgS0, (PgCommitStore.getDiff pgS0 c0).map FsCall.dropC) :=
  c7_dropFilesets_behaviour.2.1 smTest pgS0 c0 (fun _ _ => rfl)

/-! Worker lemmas. -/

/-- Reading back the tag just written. -/
theorem getTag_putObject (st : Store) (tag : String) (b : TreeBytes) :
    Store.GetTag (Store.PutObject st tag b) tag = some b :=
  alistGet_alistSet_self st tag b

/-- Every event emitted while processing walk entries is a directory record
or a block upload — never a tag write. -/
theorem walkEntries_evs (env : UploadEnv) :
    ∀ (entries : List WalkEntry) (tree : TreeBytes),
      ∀ ev ∈ (walkEntries env entries tree).2.2,
        (∃ p, ev = UpEv.putDirEv p) ∨ (∃ p, ev = UpEv.putBlockEv p) := by
  intro entries
  induction entries with
  | nil => intro tree ev h; simp [walkEntries] at h
  | cons e rest ih =>
    intro tree ev h
    by_cases hd : e.isDir
    · simp only [walkEntries, hd, if_pos, List.mem_cons] at h
      rcases h with h | h
      · exact Or.inl ⟨e.relPath, h⟩
      · exact ih _ ev h
    · rcases hb : env.putBlock e.relPath with er | refs
      · simp only [walkEntries, hd, if_neg, hb] at h
        simp at h
        exact Or.inr ⟨e.relPath, h⟩
      · rcases hdup : tree.any (fun te =>
          match te with
          | .dir p => decide (p = e.relPath)
          | .file p _ => decide (p = e.relPath)) with _ | _
        · simp only [walkEntries, hd, if_neg, hb, hdup, Bool.false_eq_true,
            if_false, List.mem_cons] at h
          rcases h with h | h
          · exact Or.inr ⟨e.relPath, h⟩
          · exact ih _ ev h
        · simp only [walkEntries, hd, if_neg, hb, hdup, if_pos] at h
          simp at h
          exact Or.inr ⟨e.relPath, h⟩

/-- When `uploadOutput` succeeds, the new store is the old one with the tree
recorded under the tag, and the tag reads back. -/
theorem uploadOutput_ok_store (env : UploadEnv) (st : Store) (tag : String)
    (h : (uploadOutput env st tag).1 = .ok ()) :
    ∃ tree, (uploadOutput env st tag).2.1 = Store.PutObject st tag tree ∧
      Store.GetTag (uploadOutput env st tag).2.1 tag = some tree := by
  rcases hw : env.walkErr with _ | e
  · rcases hwe : walkEntries env env.entries [] with ⟨tree, ro, evs⟩
    rcases ro with _ | e
    · rcases hf : env.finishErr with _ | e
      · rcases hs : env.serializeErr with _ | e
        · rcases hp : env.putObjectErr with _ | e
          · refine ⟨tree, ?_, ?_⟩
            · simp [uploadOutput, hw, hwe, hf, hs, hp]
            · have h2 : (uploadOutput env st tag).2.1 = Store.PutObject st tag tree := by
                simp [uploadOutput, hw, hwe, hf, hs, hp]
              rw [h2]
              exact getTag_putObject st tag tree
          · simp [uploadOutput, hw, hwe, hf, hs, hp] at h
        · simp [uploadOutput, hw, hwe, hf, hs] at h
      · simp [uploadOutput, hw, hwe, hf] at h
    · simp [uploadOutput, hw, hwe] at h
  · simp [uploadOutput, hw] at h

/-- When `uploadOutput` fails, the store is unchanged. -/
theorem uploadOutput_error_store (env : UploadEnv) (st : Store) (tag : String)
    (e : GoErr) (h : (uploadOutput env st tag).1 = .error e) :
    (uploadOutput env st tag).2.1 = st := by
  rcases hw : env.walkErr with _ | e'
  · rcases hwe : walkEntries env env.entries [] with ⟨tree, ro, evs⟩
    rcases ro with _ | e'
    · rcases hf : env.finishErr with _ | e'
      · rcases hs : env.serializeErr with _ | e'
        · rcases hp : env.putObjectErr with _ | e'
          · simp [uploadOutput, hw, hwe, hf, hs, hp] at h
          · simp [uploadOutput, hw, hwe, hf, hs, hp]
        · simp [uploadOutput, hw, hwe, hf, hs]
      · simp [uploadOutput, hw, hwe, hf]
    · simp [uploadOutput, hw, hwe]
  · simp [uploadOutput, hw]

/-- When `uploadOutput` succeeds, its trace is the walk events followed by
finish, serialize, and the tag write — the tag write is last. -/
theorem uploadOutput_ok_trace (env : UploadEnv) (st : Store) (tag : String)
    (h : (uploadOutput env st tag).1 = .ok ()) :
    (uploadOutput env st tag).2.2 =
      (walkEntries env env.entries []).2.2 ++
        [UpEv.finishEv, UpEv.serializeEv, UpEv.putObjectEv tag] := by
  rcases hw : env.walkErr with _ | e
  · rcases hwe : walkEntries env env.entries [] with ⟨tree, ro, evs⟩
    rcases ro with _ | e
    · rcases hf : env.finishErr with _ | e
      · rcases hs : env.serializeErr with _ | e
        · rcases hp : env.putObjectErr with _ | e
          · simp [uploadOutput, hw, hwe, hf, hs, hp]
          · simp [uploadOutput, hw, hwe, hf, hs, hp] at h
        · simp [uploadOutput, hw, hwe, hf, hs] at h
      · simp [uploadOutput, hw, hwe, hf] at h
    · simp [uploadOutput, hw, hwe] at h
  · simp [uploadOutput, hw] at h

/-- When `uploadOutput` fails, no tag write event is in its trace. -/
theorem uploadOutput_error_no_putObject (env : UploadEnv) (st : Store)
    (tag tag' : String) (e : GoErr) (h : (uploadOutput env st tag).1 = .error e) :
    UpEv.putObjectEv tag' ∉ (uploadOutput env st tag).2.2 := by
  have hwalk := walkEntries_evs env env.entries []
  rcases hw : env.walkErr with _ | e'
  · rcases hwe : walkEntries env env.entries [] with ⟨tree, ro, evs⟩
    have hevs : ∀ ev ∈ evs, (∃ p, ev = UpEv.putDirEv p) ∨ (∃ p, ev = UpEv.putBlockEv p) := by
      intro ev hev
      exact hwalk ev (by rw [hwe]; exact hev)
    have hnotin : UpEv.putObjectEv tag' ∉ evs := by
      intro hmem
      rcases hevs _ hmem with ⟨p, hp⟩ | ⟨p, hp⟩ <;> simp at hp
    rcases ro with _ | e'
    · rcases hf : env.finishErr with _ | e'
      · rcases hs : env.serializeErr with _ | e'
        · rcases hp : env.putObjectErr with _ | e'
          · simp [uploadOutput, hw, hwe, hf, hs, hp] at h
          · simp [uploadOutput, hw, hwe, hf, hs, hp, hnotin]
        · simp [uploadOutput, hw, hwe, hf, hs, hnotin]
      · simp [uploadOutput, hw, hwe, hf, hnotin]
    · simp [uploadOutput, hw, hwe, hnotin]
  · simp [uploadOutput, hw]

/-- Positional indexing stays in bounds along `downloadData`'s loop when the
remaining data fits in the remaining inputs. -/
theorem downloadData_go_inbounds (pinfo : PipelineInfo)
    (pull : Nat → Input → FileInfo → Option GoErr) :
    ∀ (rest : List FileInfo) (j : Nat),
      j + rest.length ≤ pinfo.inputs.length →
      ∀ i, downloadData.go pinfo pull j rest ≠ .indexOutOfRange i := by
  intro rest
  induction rest with
  | nil =>
    intro j h i
    simp [downloadData.go]
  | cons d rest ih =>
    intro j h i
    simp only [List.length_cons] at h
    have hj : j < pinfo.inputs.length := by omega
    obtain ⟨input, hinput⟩ : ∃ x, pinfo.inputs[j]? = some x :=
      ⟨_, List.getElem?_eq_getElem hj⟩
    rcases hp : pull j input d with _ | e
    · simp only [downloadData.go, hinput, hp]
      exact ih (j + 1) (by omega) i
    · simp [downloadData.go, hinput, hp]

/-- Inversion for a successful `Process`: the fingerprint was the returned
tag, and the final store has an entry under it. -/
theorem process_ok_inv (hash : List FileInfo → PipelineInfo → Except GoErr String)
    (pinfo : PipelineInfo) (env : ProcEnv) (st : Store) (data : List FileInfo)
    (tag : String) (st1 : Store) (tr : List Ev)
    (h : Process hash pinfo env st data = (.ok tag, st1, tr)) :
    hash data pinfo = .ok tag ∧ ∃ b, Store.GetTag st1 tag = some b := by
  rcases h1 : hash data pinfo with e | tag'
  · simp [Process, h1] at h
  · rcases h2 : Store.GetTag st tag' with _ | b
    · rcases h3 : downloadData pinfo env.pull data with _ | e | i
      case ok =>
        rcases h4 : runUserCode pinfo.transform env.mkdirErr env.runOutcome with e | succ
        · simp [Process, h1, h2, h3, h4] at h
        · rcases h5 : uploadOutput env.upload st tag' with ⟨r, st2, evs⟩
          rcases r with e | u
          · simp [Process, h1, h2, h3, h4, h5] at h
          · have h6 : (uploadOutput env.upload st tag').1 = .ok () := by
              rw [h5]
            obtain ⟨tree, -, htree⟩ := uploadOutput_ok_store env.upload st tag' h6
            rw [h5] at htree
            have hP : Process hash pinfo env st data =
                (.ok tag', st2, [Ev.lockEv, Ev.hashEv, Ev.getTagEv tag' false] ++
                  [Ev.downloadEv, Ev.runEv succ, Ev.uploadEv tag', Ev.unlockEv]) := by
              simp [Process, h1, h2, h3, h4, h5]
            rw [hP] at h
            injection h with hres h'
            injection h' with hst htr
            injection hres with htag
            subst htag
            subst hst
            exact ⟨rfl, tree, htree⟩
      case err => simp [Process, h1, h2, h3] at h
      case indexOutOfRange => simp [Process, h1, h2, h3] at h
    · have hP : Process hash pinfo env st data =
          (.ok tag', st, [Ev.lockEv, Ev.hashEv, Ev.getTagEv tag' true, Ev.unlockEv]) := by
        simp [Process, h1, h2]
      rw [hP] at h
      injection h with hres h'
      injection h' with hst htr
      injection hres with htag
      subst htag
      subst hst
      exact ⟨rfl, b, h2⟩

/-- Membership implies `List.contains` for the accepted-exit-code loop. -/
theorem contains_of_mem {c : Int} {l : List Int} (h : c ∈ l) :
    l.contains c = true := by
  simpa using h

/-- C9: downloadData indexes the declared inputs positionally with no bounds
check: when the data slice has at most as many entries as the declared
inputs, the out-of-range branch is unreachable; and there is a request with
more data entries than declared inputs on which the indexing goes out of
range. -/
theorem c9_download_indexing :
    (∀ (pinfo : PipelineInfo) (pull : Nat → Input → FileInfo → Option GoErr)
       (data : List FileInfo),
      data.length ≤ pinfo.inputs.length →
      ∀ i, downloadData pinfo pull data ≠ .indexOutOfRange i) ∧
    (∃ (pinfo : PipelineInfo) (pull : Nat → Input → FileInfo → Option GoErr)
       (data : List FileInfo) (i : Nat),
      pinfo.inputs.length < data.length ∧
      downloadData pinfo pull data = .indexOutOfRange i) := by
  constructor
  · intro pinfo pull data h i
    exact downloadData_go_inbounds pinfo pull data 0 (by simpa using h) i
  · exact ⟨pinfoFail, fun _ _ _ => none, data1, 0, by decide, rfl⟩

/-- Witness for C9 on a one-input pipeline with a one-entry datum. -/
theorem c9_download_indexing_witness :
    downloadData pinfoOne (fun _ _ _ => none) data1 ≠ DownResult.indexOutOfRange 0 :=
  c9_download_indexing.1 pinfoOne (fun _ _ _ => none) data1 (by decide) 0

/-- C8 counterexample: in a concrete execution of Process, the fingerprint
computation does not precede the first lock acquisition — the trace starts
with the lock event, so the cache probe is not performed before the mutex is
acquired. -/
theorem c8_probe_before_lock_counterexample :
    probeBeforeLock (Process hash0 pinfoFail envFail [] []).2.2 = false := rfl

/-- C8 (amended): in every execution of Process, the worker-wide mutex is
acquired first — the trace begins with the lock event, it is not re-acquired
afterwards, and the fingerprint computation happens strictly after it — so
all callers, including the cache probe, serialize behind the mutex. -/
theorem c8_lock_acquired_first
    (hash : List FileInfo → PipelineInfo → Except GoErr String)
    (pinfo : PipelineInfo) (env : ProcEnv) (st : Store) (data : List FileInfo) :
    ∃ rest, (Process hash pinfo env st data).2.2 = Ev.lockEv :: Ev.hashEv :: rest ∧
      Ev.lockEv ∉ rest := by
  rcases h1 : hash data pinfo with e | tag
  · exact ⟨[Ev.unlockEv], by simp [Process, h1], by simp⟩
  · rcases h2 : Store.GetTag st tag with _ | b
    · rcases h3 : downloadData pinfo env.pull data with _ | e | i
      case ok =>
        rcases h4 : runUserCode pinfo.transform env.mkdirErr env.runOutcome with e | succ
        · exact ⟨[Ev.getTagEv tag false, Ev.downloadEv, Ev.unlockEv],
            by simp [Process, h1, h2, h3, h4], by simp⟩
        · rcases h5 : uploadOutput env.upload st tag with ⟨r, st2, evs⟩
          rcases r with e | u
          · exact ⟨[Ev.getTagEv tag false, Ev.downloadEv, Ev.runEv succ,
                Ev.uploadEv tag, Ev.unlockEv],
              by simp [Process, h1, h2, h3, h4, h5], by simp⟩
          · exact ⟨[Ev.getTagEv tag false, Ev.downloadEv, Ev.runEv succ,
                Ev.uploadEv tag, Ev.unlockEv],
              by simp [Process, h1, h2, h3, h4, h5], by simp⟩
      case err =>
        exact ⟨[Ev.getTagEv tag false, Ev.downloadEv, Ev.unlockEv],
          by simp [Process, h1, h2, h3], by simp⟩
      case indexOutOfRange =>
        exact ⟨[Ev.getTagEv tag false, Ev.downloadEv, Ev.unlockEv],
          by simp [Process, h1, h2, h3], by simp⟩
    · exact ⟨[Ev.getTagEv tag true, Ev.unlockEv], by simp [Process, h1, h2], by simp⟩

/-- C2: when the computed tag already has an entry, Process returns that tag
immediately with the store unchanged and a trace containing no download, run
or upload event; hence after any successful Process, a second call with the
same data and fingerprint function returns the same tag via the cache and
never runs the user binary. -/
theorem c2_cache_hit_idempotence :
    (∀ (hash : List FileInfo → PipelineInfo → Except GoErr String)
       (pinfo : PipelineInfo) (env : ProcEnv) (st : Store)
       (data : List FileInfo) (tag : String) (b : TreeBytes),
      hash data pinfo = .ok tag →
      Store.GetTag st tag = some b →
      Process hash pinfo env st data =
        (.ok tag, st, [.lockEv, .hashEv, .getTagEv tag true, .unlockEv])) ∧
    (∀ (hash : List FileInfo → PipelineInfo → Except GoErr String)
       (pinfo : PipelineInfo) (env1 env2 : ProcEnv) (st : Store)
       (data : List FileInfo) (tag : String) (st1 : Store) (tr1 : List Ev),
      Process hash pinfo env1 st data = (.ok tag, st1, tr1) →
      Process hash pinfo env2 st1 data =
        (.ok tag, st1, [.lockEv, .hashEv, .getTagEv tag true, .unlockEv])) := by
  constructor
  · intro hash pinfo env st data tag b h1 h2
    simp [Process, h1, h2]
  · intro hash pinfo env1 env2 st data tag st1 tr1 h
    obtain ⟨h1, b, h2⟩ := process_ok_inv hash pinfo env1 st data tag st1 tr1 h
    simp [Process, h1, h2]

/-- Witness for C2 at a store already holding the tag. -/
theorem c2_cache_hit_idempotence_witness :
    Process hash0 pinfoFail envFail stHit [] =
      (.ok "tag0", stHit, [.lockEv, .hashEv, .getTagEv "tag0" true, .unlockEv]) :=
  c2_cache_hit_idempotence.1 hash0 pinfoFail envFail stHit [] "tag0" [] rfl rfl

/-- C5: a download, user-code (mkdir) or upload error is returned by Process
with the object store unchanged — no object under the computed tag; within
uploadOutput the tag write is the last event, after every walk upload and
after finish and serialize, and an upload failure emits no tag write. -/
theorem c5_failure_atomicity
    (hash : List FileInfo → PipelineInfo → Except GoErr String)
    (pinfo : PipelineInfo) (env : ProcEnv) (st : Store) (data : List FileInfo)
    (tag : String)
    (h1 : hash data pinfo = .ok tag)
    (h2 : Store.GetTag st tag = none) :
    (∀ e, downloadData pinfo env.pull data = .err e →
      Process hash pinfo env st data =
        (.err e, st, [.lockEv, .hashEv, .getTagEv tag false, .downloadEv, .unlockEv])) ∧
    (downloadData pinfo env.pull data = .ok → ∀ e, env.mkdirErr = some e →
      Process hash pinfo env st data =
        (.err e, st, [.lockEv, .hashEv, .getTagEv tag false, .downloadEv, .unlockEv])) ∧
    (downloadData pinfo env.pull data = .ok → env.mkdirErr = none →
      ∀ e, (uploadOutput env.upload st tag).1 = .error e →
      (Process hash pinfo env st data).1 = .err e ∧
      (Process hash pinfo env st data).2.1 = st ∧
      Store.GetTag (Process hash pinfo env st data).2.1 tag = none ∧
      UpEv.putObjectEv tag ∉ (uploadOutput env.upload st tag).2.2) ∧
    ((uploadOutput env.upload st tag).1 = .ok () →
      ∃ evs, (uploadOutput env.upload st tag).2.2 =
          evs ++ [UpEv.finishEv, UpEv.serializeEv, UpEv.putObjectEv tag] ∧
        ∀ ev ∈ evs, (∃ p, ev = UpEv.putDirEv p) ∨ (∃ p, ev = UpEv.putBlockEv p)) := by
  refine ⟨?_, ?_, ?_, ?_⟩
  · intro e h3
    simp [Process, h1, h2, h3]
  · intro h3 e h4
    simp [Process, h1, h2, h3, runUserCode, h4]
  · intro h3 h4 e h5
    have hstore := uploadOutput_error_store env.upload st tag e h5
    have hnp := uploadOutput_error_no_putObject env.upload st tag tag e h5
    rcases hu : uploadOutput env.upload st tag with ⟨r, st2, evs⟩
    rw [hu] at h5 hstore hnp
    have hr : r = .error e := h5
    subst hr
    have hst2 : st2 = st := hstore
    subst hst2
    refine ⟨?_, ?_, ?_, hnp⟩
    · simp [Process, h1, h2, h3, runUserCode, h4, hu]
    · simp [Process, h1, h2, h3, runUserCode, h4, hu]
    · simp [Process, h1, h2, h3, runUserCode, h4, hu, h2]
  · intro h
    exact ⟨(walkEntries env.upload env.upload.entries []).2.2,
      uploadOutput_ok_trace env.upload st tag h,
      fun ev hev => walkEntries_evs env.upload env.upload.entries [] ev hev⟩

/-- Witness for C5: a failing download surfaces as the Process error and the
store stays empty. -/
theorem c5_failure_atomicity_witness :
    Process hash0 pinfoOne envPullErr [] data1 =
      (.err (.other "pull failed"), [],
       [.lockEv, .hashEv, .getTagEv "tag0" false, .downloadEv, .unlockEv]) :=
  (c5_failure_atomicity hash0 pinfoOne envPullErr [] data1 "tag0" rfl rfl).1
    (.other "pull failed") rfl

/-- C6: a non-zero exit code that is a member of the transform's accepted
return codes is classified as success; Process proceeds to upload, returns
the tag, and the tag has an entry afterwards. -/
theorem c6_accept_return_code
    (hash : List FileInfo → PipelineInfo → Except GoErr String)
    (pinfo : PipelineInfo) (env : ProcEnv) (st : Store) (data : List FileInfo)
    (tag : String) (c : Int)
    (h1 : hash data pinfo = .ok tag)
    (h2 : Store.GetTag st tag = none)
    (h3 : downloadData pinfo env.pull data = .ok)
    (h4 : env.mkdirErr = none)
    (h5 : env.runOutcome = .exit c)
    (h6 : c ∈ pinfo.transform.acceptReturnCode)
    (h7 : (uploadOutput env.upload st tag).1 = .ok ()) :
    runUserCode pinfo.transform env.mkdirErr env.runOutcome = .ok true ∧
    (Process hash pinfo env st data).1 = .ok tag ∧
    Ev.runEv true ∈ (Process hash pinfo env st data).2.2 ∧
    ∃ tree, Store.GetTag (Process hash pinfo env st data).2.1 tag = some tree := by
  have hrun : runUserCode pinfo.transform env.mkdirErr env.runOutcome = .ok true := by
    rw [h4, h5]
    simpa [runUserCode, runSuccess] using h6
  obtain ⟨tree, -, htree⟩ := uploadOutput_ok_store env.upload st tag h7
  rcases hu : uploadOutput env.upload st tag with ⟨r, st2, evs⟩
  rw [hu] at h7 htree
  have hr : r = .ok () := h7
  subst hr
  refine ⟨hrun, ?_, ?_, ⟨tree, ?_⟩⟩
  · simp [Process, h1, h2, h3, hrun, hu]
  · simp [Process, h1, h2, h3, hrun, hu]
  · have hP : (Process hash pinfo env st data).2.1 = st2 := by
      simp [Process, h1, h2, h3, hrun, hu]
    rw [hP]
    exact htree

/-- Witness for C6: exit code 3 with accepted codes `[3]` succeeds and tags. -/
theorem c6_accept_return_code_witness :
    runUserCode pinfoAccept.transform envAccept.mkdirErr envAccept.runOutcome = .ok true ∧
    (Process hash0 pinfoAccept envAccept [] []).1 = .ok "tag0" ∧
    Ev.runEv true ∈ (Process hash0 pinfoAccept envAccept [] []).2.2 ∧
    ∃ tree, Store.GetTag (Process hash0 pinfoAccept envAccept [] []).2.1 "tag0" = some tree :=
  c6_accept_return_code hash0 pinfoAccept envAccept [] [] "tag0" 3 rfl rfl rfl rfl
    rfl (by decide) rfl

/-- C1: at a concrete failing input — user binary exits 1, no accepted return
codes — the run is classified as a user-code failure (`success = false`, only
logged), yet Process proceeds to upload, writes the tree under the computed
tag, and returns success: the code diverges from the claim, which expects an
error and no object under the tag. -/
theorem c1_user_failure_still_writes_tag :
    runSuccess tFail (RunOutcome.exit 1) = false ∧
    Process hash0 pinfoFail envFail [] [] =
      (.ok "tag0", [("tag0", [])],
       [.lockEv, .hashEv, .getTagEv "tag0" false, .downloadEv, .runEv false,
        .uploadEv "tag0", .unlockEv]) ∧
    Store.GetTag (Process hash0 pinfoFail envFail [] []).2.1 "tag0" = some [] :=
  ⟨rfl, rfl, rfl⟩

end Pach
